import Mathlib

/-!
Verification of the `vector` package (go-sqlite-vector): blob codec,
int8 quantization, squared-L2 distance functions, and the chunk cursor.

Modelling conventions:
* a `byte` is a `Nat` (encoders only ever produce values `< 256`);
* a `float32` is identified with its 32-bit pattern (`math.Float32bits` /
  `math.Float32frombits` are mutually inverse), so blobs of float32 values
  are lists of patterns `< 2^32`;
* numeric float computations (quantization arithmetic, distances) are
  modelled by exact rational arithmetic on the values denoted by the
  patterns;
* Go `error` results become `Except VErr`, with `VErr` recording which
  failure class the `fmt.Errorf` message belongs to.
-/

namespace GoVec

/-- Failure classes of the Go `error` values produced by the package. -/
inductive VErr where
  | format
  | dimension
  | config
  | chunker (msg : String)
  | embed (msg : String)
  deriving DecidableEq, Repr

/-- Model of `Float32ToBlob` (src/unnamed/part_000:225-231): each element
contributes the four little-endian bytes of its 32-bit pattern, written by
`binary.LittleEndian.PutUint32`. -/
def Float32ToBlob (v : List Nat) : List Nat :=
  v.flatMap fun x => [x % 2 ^ 8, x / 2 ^ 8 % 2 ^ 8, x / 2 ^ 16 % 2 ^ 8, x / 2 ^ 24 % 2 ^ 8]

/-- Recomposition of a `uint32` from four little-endian bytes
(`binary.LittleEndian.Uint32`). -/
def bytesToU32 (b0 b1 b2 b3 : Nat) : Nat :=
  b0 + b1 * 2 ^ 8 + b2 * 2 ^ 16 + b3 * 2 ^ 24

/-- Decoding loop of `BlobToFloat32`: one 32-bit pattern per 4-byte
little-endian group, in order. -/
def decode4 : List Nat → List Nat
  | b0 :: b1 :: b2 :: b3 :: rest => bytesToU32 b0 b1 b2 b3 :: decode4 rest
  | _ => []

/-- Model of `BlobToFloat32` (src/unnamed/part_000:235-244): errors when the
length is not a multiple of 4, otherwise decodes 4-byte groups. -/
def BlobToFloat32 (b : List Nat) : Except VErr (List Nat) :=
  if b.length % 4 ≠ 0 then .error .format else .ok (decode4 b)

/-- Model of `isQuantizedBlob` (src/unnamed/part_000:255-257):
`len(b) >= 2 && b[0] == 0x00 && b[1] == 0x01`. -/
def isQuantizedBlob : List Nat → Bool
  | b0 :: b1 :: _ => b0 == 0x00 && b1 == 0x01
  | _ => false

/-- Value of the first 4-byte little-endian group of a byte list, when the
list has at least four entries. -/
def group4? : List Nat → Option Nat
  | b0 :: b1 :: b2 :: b3 :: _ => some (bytesToU32 b0 b1 b2 b3)
  | _ => none

theorem Float32ToBlob_length (v : List Nat) : (Float32ToBlob v).length = 4 * v.length := by
  induction v with
  | nil => rfl
  | cons x v ih =>
    simp only [Float32ToBlob, List.flatMap_cons, List.length_append, List.length_cons,
      List.length_nil] at ih ⊢
    omega

theorem Float32ToBlob_cons (x : Nat) (v : List Nat) :
    Float32ToBlob (x :: v) =
      x % 2 ^ 8 :: x / 2 ^ 8 % 2 ^ 8 :: x / 2 ^ 16 % 2 ^ 8 :: x / 2 ^ 24 % 2 ^ 8 ::
        Float32ToBlob v := by
  simp [Float32ToBlob, List.flatMap_cons]

theorem decode4_Float32ToBlob (v : List Nat) (h : ∀ x ∈ v, x < 2 ^ 32) :
    decode4 (Float32ToBlob v) = v := by
  induction v with
  | nil => rfl
  | cons x v ih =>
    rw [Float32ToBlob_cons, decode4]
    have hx : x < 2 ^ 32 := h x (List.mem_cons_self x v)
    have hrest : ∀ y ∈ v, y < 2 ^ 32 := fun y hy => h y (List.mem_cons_of_mem x hy)
    rw [ih hrest]
    congr 1
    unfold bytesToU32
    omega

/-- Claim C2: decoding the encoding of any vector of 32-bit patterns returns
the vector exactly, bit for bit — including the empty vector and NaN or
infinity bit patterns, since the codec reinterprets bits per element. -/
theorem blob_roundtrip (v : List Nat) (h : ∀ x ∈ v, x < 2 ^ 32) :
    BlobToFloat32 (Float32ToBlob v) = .ok v := by
  unfold BlobToFloat32
  rw [Float32ToBlob_length]
  simp [Nat.mul_mod_right, decode4_Float32ToBlob v h]

/-- Witness for C2 at a concrete vector containing the zero pattern, a NaN
pattern (0x7FC00000), the positive-infinity pattern (0x7F800000) and the
pattern of 1.0 (0x3F800000). -/
theorem blob_roundtrip_witness :
    (∀ x ∈ [0, 0x7FC00000, 0x7F800000, 0x3F800000], x < 2 ^ 32) ∧
      BlobToFloat32 (Float32ToBlob [0, 0x7FC00000, 0x7F800000, 0x3F800000]) =
        .ok [0, 0x7FC00000, 0x7F800000, 0x3F800000] :=
  ⟨by decide, blob_roundtrip [0, 0x7FC00000, 0x7F800000, 0x3F800000] (by decide)⟩

theorem decode4_small : ∀ b : List Nat, b.length < 4 → decode4 b = []
  | [], _ => rfl
  | [_], _ => rfl
  | [_, _], _ => rfl
  | [_, _, _], _ => rfl
  | _ :: _ :: _ :: _ :: _, h => by simp at h; omega

theorem group4?_small : ∀ b : List Nat, b.length < 4 → group4? b = none
  | [], _ => rfl
  | [_], _ => rfl
  | [_, _], _ => rfl
  | [_, _, _], _ => rfl
  | _ :: _ :: _ :: _ :: _, h => by simp at h; omega

theorem decode4_length : ∀ b : List Nat, (decode4 b).length = b.length / 4
  | b0 :: b1 :: b2 :: b3 :: rest => by
    simp only [decode4, List.length_cons, decode4_length rest]
    omega
  | [] => by simp [decode4_small]
  | [_] => by rw [decode4_small _ (by simp)]; simp
  | [_, _] => by rw [decode4_small _ (by simp)]; simp
  | [_, _, _] => by rw [decode4_small _ (by simp)]; simp

theorem decode4_get?_small (b : List Nat) (hb : b.length < 4) (i : Nat) :
    (decode4 b).get? i = group4? (b.drop (4 * i)) := by
  rw [decode4_small b hb, group4?_small (b.drop (4 * i)) (by rw [List.length_drop]; omega)]
  simp

theorem decode4_get? : ∀ (b : List Nat) (i : Nat),
    (decode4 b).get? i = group4? (b.drop (4 * i))
  | b0 :: b1 :: b2 :: b3 :: rest, i => by
    cases i with
    | zero => rfl
    | succ j =>
      have h4 : 4 * (j + 1) = 4 * j + 1 + 1 + 1 + 1 := by omega
      rw [h4]
      simp only [decode4, List.get?_cons_succ, List.drop_succ_cons]
      exact decode4_get? rest j
  | [], i => decode4_get?_small [] (by simp) i
  | [a], i => decode4_get?_small [a] (by simp) i
  | [a, b], i => decode4_get?_small [a, b] (by simp) i
  | [a, b, c], i => decode4_get?_small [a, b, c] (by simp) i

/-- Claim C9: `BlobToFloat32` fails with a format error exactly when the
byte length is not a multiple of 4; otherwise it succeeds, producing one
32-bit pattern per 4-byte little-endian group with order preserved, and the
empty byte string yields the empty vector. -/
theorem blobToFloat32_spec (b : List Nat) :
    (BlobToFloat32 b = .error .format ↔ b.length % 4 ≠ 0) ∧
    (b.length % 4 = 0 →
      ∃ v, BlobToFloat32 b = .ok v ∧ v.length = b.length / 4 ∧
        ∀ i, v.get? i = group4? (b.drop (4 * i))) ∧
    (b = [] → BlobToFloat32 b = .ok []) := by
  refine ⟨?_, ?_, ?_⟩
  · unfold BlobToFloat32
    by_cases h : b.length % 4 = 0 <;> simp [h]
  · intro h
    refine ⟨decode4 b, ?_, decode4_length b, decode4_get? b⟩
    unfold BlobToFloat32
    simp [h]
  · intro h
    subst h
    rfl

/-- Witness for C9 at a 5-byte blob (error case) and an 8-byte blob. -/
theorem blobToFloat32_spec_witness :
    (BlobToFloat32 [1, 2, 3, 4, 5] = .error .format ↔ ([1, 2, 3, 4, 5] : List Nat).length % 4 ≠ 0) ∧
    (([1, 2, 3, 4, 5] : List Nat).length % 4 = 0 →
      ∃ v, BlobToFloat32 [1, 2, 3, 4, 5] = .ok v ∧ v.length = ([1, 2, 3, 4, 5] : List Nat).length / 4 ∧
        ∀ i, v.get? i = group4? (([1, 2, 3, 4, 5] : List Nat).drop (4 * i))) ∧
    (([1, 2, 3, 4, 5] : List Nat) = [] → BlobToFloat32 [1, 2, 3, 4, 5] = .ok []) :=
  blobToFloat32_spec [1, 2, 3, 4, 5]

/-- Counterexample for claim C6: the raw encoding of the one-element vector
whose 32-bit pattern is 0x00000100 (the denormal float32 value 2^-141)
starts with the bytes 0x00, 0x01 and is therefore classified as quantized,
refuting the clause that `isQuantizedBlob` is false for every
`Float32ToBlob` output. -/
theorem isQuantizedBlob_collision :
    Float32ToBlob [0x00000100] = [0x00, 0x01, 0x00, 0x00] ∧
      isQuantizedBlob (Float32ToBlob [0x00000100]) = true := by
  constructor <;> rfl

/-- Claim C6 as amended: `isQuantizedBlob b` is true iff `b` has length at
least 2 and starts with bytes 0x00, 0x01; however a `Float32ToBlob` output
can carry that header (e.g. a vector whose first pattern has low-order
bytes 0x00, 0x01), so the header test does not reject every raw blob. -/
theorem isQuantizedBlob_spec (b : List Nat) :
    (isQuantizedBlob b = true ↔ 2 ≤ b.length ∧ b.get? 0 = some 0x00 ∧ b.get? 1 = some 0x01) ∧
      ∃ v : List Nat, (∀ x ∈ v, x < 2 ^ 32) ∧ isQuantizedBlob (Float32ToBlob v) = true := by
  refine ⟨?_, [0x00000100], by decide, by rfl⟩
  match b with
  | [] => simp [isQuantizedBlob]
  | [b0] => simp [isQuantizedBlob]
  | b0 :: b1 :: rest => simp [isQuantizedBlob]

/-- Model of Go `math.Round`: round half away from zero (the exact-rational
reading of the float64 computation). -/
def goRound (x : ℚ) : ℤ :=
  if 0 ≤ x then ⌊x + 1 / 2⌋ else -⌊-x + 1 / 2⌋

/-- Model of `byte(int8(q))` for an integer-valued `q`: the two's-complement
byte of a signed 8-bit value. -/
def byteOfInt8 (q : ℤ) : Nat :=
  (q % 256).toNat

/-- Model of `int8(raw)` for a byte `raw`: signed 8-bit reinterpretation. -/
def int8OfByte (b : Nat) : ℤ :=
  if b < 128 then (b : ℤ) else (b : ℤ) - 256

/-- Per-element code computed by the loop of `quantize`
(src/unnamed/part_000:264-271), with the source's if-chain clamping. -/
def quantizeCode (f mn mx : ℚ) : ℤ :=
  let normalized := (f - mn) / (mx - mn) * 255
  let q := goRound normalized - 128
  if q < -128 then -128 else if q > 127 then 127 else q

/-- Model of `quantize` (src/unnamed/part_000:259-275): the 2-byte header
0x00, 0x01 followed by one code byte per element. -/
def quantize (v : List ℚ) (mn mx : ℚ) : List Nat :=
  0x00 :: 0x01 :: v.map fun f => byteOfInt8 (quantizeCode f mn mx)

/-- Model of `dequantize` (src/unnamed/part_000:277-289): errors unless the
blob starts with the header bytes 0x00, 0x01; otherwise maps each remaining
code byte through the affine reconstruction. -/
def dequantize (b : List Nat) (mn mx : ℚ) : Except VErr (List ℚ) :=
  match b with
  | 0 :: 1 :: data =>
    .ok (data.map fun raw => ((int8OfByte raw : ℚ) + 128) / 255 * (mx - mn) + mn)
  | _ => .error .format

theorem clamp_eq_max_min (q : ℤ) :
    (if q < -128 then -128 else if q > 127 then (127 : ℤ) else q) =
      max (-128) (min 127 q) := by
  rcases lt_trichotomy q (-128) with h | h | h <;> simp [h] <;> omega

theorem goRound_nonneg_eq_floor (x : ℚ) (h : 0 ≤ x) : goRound x = ⌊x + 1 / 2⌋ := by
  simp [goRound, h]

theorem quantizeCode_sat_high (f mn mx : ℚ) (h : mn < mx) (hf : mx < f) :
    quantizeCode f mn mx = 127 := by
  have hr : 0 < mx - mn := by linarith
  have hn : (255 : ℚ) < (f - mn) / (mx - mn) * 255 := by
    have h1 : (1 : ℚ) < (f - mn) / (mx - mn) := (one_lt_div hr).mpr (by linarith)
    nlinarith
  have hge : (255 : ℤ) ≤ goRound ((f - mn) / (mx - mn) * 255) := by
    rw [goRound_nonneg_eq_floor _ (by linarith)]
    exact Int.le_floor.mpr (by push_cast; linarith)
  unfold quantizeCode
  have h1 : ¬ goRound ((f - mn) / (mx - mn) * 255) - 128 < -128 := by omega
  simp only [h1, if_false]
  by_cases h2 : goRound ((f - mn) / (mx - mn) * 255) - 128 > 127
  · simp [h2]
  · simp only [h2, if_false]
    omega

theorem quantizeCode_sat_low (f mn mx : ℚ) (h : mn < mx) (hf : f < mn) :
    quantizeCode f mn mx = -128 := by
  have hr : 0 < mx - mn := by linarith
  have hn : (f - mn) / (mx - mn) * 255 < 0 := by
    have h1 : (f - mn) / (mx - mn) < 0 := div_neg_of_neg_of_pos (by linarith) hr
    nlinarith
  have hle : goRound ((f - mn) / (mx - mn) * 255) ≤ 0 := by
    unfold goRound
    rw [if_neg (by linarith)]
    have : (0 : ℤ) ≤ ⌊-((f - mn) / (mx - mn) * 255) + 1 / 2⌋ :=
      Int.le_floor.mpr (by push_cast; linarith)
    omega
  unfold quantizeCode
  by_cases h1 : goRound ((f - mn) / (mx - mn) * 255) - 128 < -128
  · simp [h1]
  · simp only [h1, if_false]
    have h2 : ¬ goRound ((f - mn) / (mx - mn) * 255) - 128 > 127 := by omega
    simp only [h2, if_false]
    omega

/-- Claim C1: with a configured range `mn < mx`, `quantize` outputs the
2-byte header 0x00, 0x01 followed by one code byte per element in order
(total length `len(v) + 2`); each code is
`clamp(round((f - mn) / (mx - mn) * 255) - 128, -128, 127)` written as a
max/min clamp, and out-of-range elements saturate silently to 127 or -128. -/
theorem quantize_spec (v : List ℚ) (mn mx : ℚ) (h : mn < mx) :
    (quantize v mn mx).length = v.length + 2 ∧
    (quantize v mn mx).take 2 = [0x00, 0x01] ∧
    (∀ i, (quantize v mn mx).get? (i + 2) =
      (v.get? i).map fun f =>
        byteOfInt8 (max (-128) (min 127 (goRound ((f - mn) / (mx - mn) * 255) - 128)))) ∧
    (∀ f ∈ v, mx < f → quantizeCode f mn mx = 127) ∧
    (∀ f ∈ v, f < mn → quantizeCode f mn mx = -128) := by
  refine ⟨by simp [quantize], by simp [quantize], ?_, ?_, ?_⟩
  · intro i
    show (v.map fun f => byteOfInt8 (quantizeCode f mn mx)).get? i = _
    rw [List.get?_map]
    cases v.get? i with
    | none => rfl
    | some f =>
      simp only [Option.map_some']
      rw [← clamp_eq_max_min (goRound ((f - mn) / (mx - mn) * 255) - 128)]
      rfl
  · intro f _ hf
    exact quantizeCode_sat_high f mn mx h hf
  · intro f _ hf
    exact quantizeCode_sat_low f mn mx h hf

/-- Witness for C1 at the range (-1, 1) and the vector [5, -5, 1/2],
whose first two elements are out of range. -/
theorem quantize_spec_witness :
    (-1 : ℚ) < 1 ∧
    ((quantize [5, -5, 1 / 2] (-1) 1).length = ([5, -5, 1 / 2] : List ℚ).length + 2 ∧
    (quantize [5, -5, 1 / 2] (-1) 1).take 2 = [0x00, 0x01] ∧
    (∀ i, (quantize [5, -5, 1 / 2] (-1) 1).get? (i + 2) =
      (([5, -5, 1 / 2] : List ℚ).get? i).map fun f =>
        byteOfInt8 (max (-128) (min 127 (goRound ((f - -1) / (1 - -1) * 255) - 128)))) ∧
    (∀ f ∈ ([5, -5, 1 / 2] : List ℚ), 1 < f → quantizeCode f (-1) 1 = 127) ∧
    (∀ f ∈ ([5, -5, 1 / 2] : List ℚ), f < -1 → quantizeCode f (-1) 1 = -128)) :=
  ⟨by norm_num, quantize_spec [5, -5, 1 / 2] (-1) 1 (by norm_num)⟩

/-- Counterexample for claim C3: `dequantize` performs no dimension check.
It succeeds both on a blob with one code byte and on a blob with two code
bytes, under the same range; for any declared dimension at least one of the
two remaining lengths is inconsistent with it, yet neither call fails. -/
theorem dequantize_no_dimension_check :
    dequantize [0x00, 0x01, 0x00] 0 1 = .ok [128 / 255] ∧
      dequantize [0x00, 0x01, 0x00, 0x00] 0 1 = .ok [128 / 255, 128 / 255] := by
  constructor <;> · simp [dequantize, int8OfByte]

/-- Claim C3 as amended: `dequantize` fails with a format error exactly when
the blob does not start with the header bytes 0x00, 0x01 (in particular when
it is shorter than 2 bytes); it performs no dimension check — length
consistency is enforced by its caller — and on success it returns one value
per code byte `q` (signed 8-bit), namely
`(q + 128) / 255 * (mx - mn) + mn`, in order. -/
theorem dequantize_spec (b : List Nat) (mn mx : ℚ) :
    (dequantize b mn mx = .error .format ↔ b.take 2 ≠ [0x00, 0x01]) ∧
    (∀ data, b = 0x00 :: 0x01 :: data →
      dequantize b mn mx =
        .ok (data.map fun raw => ((int8OfByte raw : ℚ) + 128) / 255 * (mx - mn) + mn)) := by
  constructor
  · match b with
    | [] => simp [dequantize]
    | [b0] => simp [dequantize]
    | 0 :: 1 :: data => simp [dequantize]
    | 0 :: 0 :: data => simp [dequantize]
    | 0 :: (n + 2) :: data => simp [dequantize]
    | (n + 1) :: b1 :: data => simp [dequantize]
  · intro data hb
    subst hb
    rfl

theorem int8OfByte_byteOfInt8 (q : ℤ) (h1 : -128 ≤ q) (h2 : q ≤ 127) :
    int8OfByte (byteOfInt8 q) = q := by
  unfold int8OfByte byteOfInt8
  omega

theorem quantizeCode_in_range (f mn mx : ℚ) (h : mn < mx) (h1 : mn ≤ f) (h2 : f ≤ mx) :
    quantizeCode f mn mx = ⌊(f - mn) / (mx - mn) * 255 + 1 / 2⌋ - 128 := by
  have hr : 0 < mx - mn := by linarith
  have hn0 : (0 : ℚ) ≤ (f - mn) / (mx - mn) * 255 :=
    mul_nonneg (div_nonneg (by linarith) hr.le) (by norm_num)
  have hn255 : (f - mn) / (mx - mn) * 255 ≤ 255 := by
    have hd : (f - mn) / (mx - mn) ≤ 1 := (div_le_one hr).mpr (by linarith)
    nlinarith
  have hk0 : (0 : ℤ) ≤ ⌊(f - mn) / (mx - mn) * 255 + 1 / 2⌋ :=
    Int.le_floor.mpr (by push_cast; linarith)
  have hk255 : ⌊(f - mn) / (mx - mn) * 255 + 1 / 2⌋ ≤ 255 := by
    have hlt : ⌊(f - mn) / (mx - mn) * 255 + 1 / 2⌋ < 256 :=
      Int.floor_lt.mpr (by push_cast; linarith)
    omega
  show (if goRound ((f - mn) / (mx - mn) * 255) - 128 < -128 then (-128 : ℤ)
    else if goRound ((f - mn) / (mx - mn) * 255) - 128 > 127 then 127
    else goRound ((f - mn) / (mx - mn) * 255) - 128) = _
  rw [goRound_nonneg_eq_floor _ hn0]
  rw [if_neg (by omega), if_neg (by omega)]

theorem affine_recon_bound (r K N : ℚ) (hr : 0 < r) (hK1 : K ≤ N + 1 / 2)
    (hK2 : N - 1 / 2 < K) :
    |K / 255 * r - N / 255 * r| ≤ r / 255 := by
  have habs : |K - N| ≤ 1 / 2 := abs_le.mpr ⟨by linarith, by linarith⟩
  have heq : K / 255 * r - N / 255 * r = (K - N) / 255 * r := by ring
  rw [heq]
  calc |(K - N) / 255 * r| ≤ 1 / 2 / 255 * r := by
        rw [abs_mul, abs_of_pos hr, abs_div]
        have h255 : |(255 : ℚ)| = 255 := by norm_num
        rw [h255]
        gcongr
  _ ≤ r / 255 := by linarith

theorem recon_error_bound (mn mx f : ℚ) (h : mn < mx) (h1 : mn ≤ f) (h2 : f ≤ mx) :
    |((int8OfByte (byteOfInt8 (quantizeCode f mn mx)) : ℚ) + 128) / 255 * (mx - mn) + mn - f|
      ≤ (mx - mn) / 255 := by
  have hr : 0 < mx - mn := by linarith
  have hn0 : (0 : ℚ) ≤ (f - mn) / (mx - mn) * 255 :=
    mul_nonneg (div_nonneg (by linarith) hr.le) (by norm_num)
  have hn255 : (f - mn) / (mx - mn) * 255 ≤ 255 := by
    have hd : (f - mn) / (mx - mn) ≤ 1 := (div_le_one hr).mpr (by linarith)
    nlinarith
  have hk0 : (0 : ℤ) ≤ ⌊(f - mn) / (mx - mn) * 255 + 1 / 2⌋ :=
    Int.le_floor.mpr (by push_cast; linarith)
  have hk255 : ⌊(f - mn) / (mx - mn) * 255 + 1 / 2⌋ ≤ 255 := by
    have hlt : ⌊(f - mn) / (mx - mn) * 255 + 1 / 2⌋ < 256 :=
      Int.floor_lt.mpr (by push_cast; linarith)
    omega
  rw [quantizeCode_in_range f mn mx h h1 h2,
    int8OfByte_byteOfInt8 _ (by omega) (by omega)]
  have hfN : f - mn = (f - mn) / (mx - mn) * 255 / 255 * (mx - mn) := by
    field_simp
    ring
  have hfl := Int.floor_le ((f - mn) / (mx - mn) * 255 + 1 / 2)
  have hfg := Int.lt_floor_add_one ((f - mn) / (mx - mn) * 255 + 1 / 2)
  have hdiff : ((((⌊(f - mn) / (mx - mn) * 255 + 1 / 2⌋ - 128 : ℤ) : ℚ) + 128) / 255 * (mx - mn)
        + mn - f)
      = (⌊(f - mn) / (mx - mn) * 255 + 1 / 2⌋ : ℚ) / 255 * (mx - mn)
        - (f - mn) / (mx - mn) * 255 / 255 * (mx - mn) := by
    push_cast
    linear_combination -hfN
  rw [hdiff]
  exact affine_recon_bound (mx - mn) _ _ hr hfl (by linarith)

/-- Claim C4: for elements within the configured range `mn ≤ f ≤ mx`
(with `mn < mx`), the quantize/dequantize round trip reconstructs each
element to within `(mx - mn) / 255`, in the exact-rational model of the
float computation. -/
theorem quantize_dequantize_bound (v : List ℚ) (mn mx : ℚ) (h : mn < mx) :
    ∃ w, dequantize (quantize v mn mx) mn mx = .ok w ∧ w.length = v.length ∧
      ∀ i f f', v.get? i = some f → w.get? i = some f' → mn ≤ f → f ≤ mx →
        |f' - f| ≤ (mx - mn) / 255 := by
  refine ⟨v.map fun f =>
    ((int8OfByte (byteOfInt8 (quantizeCode f mn mx)) : ℚ) + 128) / 255 * (mx - mn) + mn,
    ?_, by simp, ?_⟩
  · have hdq : dequantize (quantize v mn mx) mn mx
        = .ok ((v.map fun f => byteOfInt8 (quantizeCode f mn mx)).map
            fun raw => ((int8OfByte raw : ℚ) + 128) / 255 * (mx - mn) + mn) := rfl
    rw [hdq, List.map_map]
    rfl
  · intro i f f' hf hf' hmn hmx
    rw [List.get?_map, hf, Option.map_some'] at hf'
    obtain rfl : _ = f' := Option.some.inj hf'
    exact recon_error_bound mn mx f h hmn hmx

/-- Witness for C4 at the vector [1/2] and the range (0, 1). -/
theorem quantize_dequantize_bound_witness :
    (0 : ℚ) < 1 ∧
    ∃ w, dequantize (quantize [1 / 2] 0 1) 0 1 = .ok w ∧
      w.length = ([1 / 2] : List ℚ).length ∧
      ∀ i f f', ([1 / 2] : List ℚ).get? i = some f → w.get? i = some f' → 0 ≤ f → f ≤ 1 →
        |f' - f| ≤ (1 - 0) / 255 :=
  ⟨by norm_num, quantize_dequantize_bound [1 / 2] 0 1 (by norm_num)⟩

/-- Exact rational value denoted by a float32 bit pattern
(`math.Float32frombits`): sign bit, 8-bit biased exponent, 23-bit mantissa.
Patterns with exponent 0xFF (infinities and NaNs) have no rational value;
the formula extends to them formally and no claim depends on their numeric
reading. -/
def f32frombits (x : Nat) : ℚ :=
  let s := x / 2 ^ 31 % 2
  let e := x / 2 ^ 23 % 2 ^ 8
  let m := x % 2 ^ 23
  let mag : ℚ :=
    if e = 0 then ((m * 2 : Nat) : ℚ) / 2 ^ 150 else (((2 ^ 23 + m) * 2 ^ e : Nat) : ℚ) / 2 ^ 150
  if s = 1 then -mag else mag

/-- Numeric vector read from a raw blob: the `a, _ := BlobToFloat32(blob)`
idiom (error ignored; the caller has already checked the length), with each
pattern interpreted as its float32 value. -/
def f32ValsOfBlob (b : List Nat) : List ℚ :=
  (match BlobToFloat32 b with
    | .ok v => v
    | .error _ => []).map f32frombits

/-- Model of `l2Squared` (src/unnamed/part_000:246-253): left-to-right
accumulation of squared element differences (both call sites pass lists of
equal length, which the zip respects). -/
def l2Squared (a b : List ℚ) : ℚ :=
  (a.zip b).foldl (fun sum d => sum + (d.1 - d.2) * (d.1 - d.2)) 0

/-- Model of the `vector_distance` scalar function
(src/unnamed/part_000:99-122): null propagation, rejection of quantized
inputs, per-argument dimension check, then squared L2 distance of the
decoded vectors. -/
def vector_distance (dim : Nat) (a? b? : Option (List Nat)) : Except VErr (Option ℚ) :=
  match a?, b? with
  | some a, some b =>
    if isQuantizedBlob a || isQuantizedBlob b then .error .format
    else if a.length ≠ dim * 4 then .error .dimension
    else if b.length ≠ dim * 4 then .error .dimension
    else .ok (some (l2Squared (f32ValsOfBlob a) (f32ValsOfBlob b)))
  | _, _ => .ok none

theorem l2_foldl_acc (l : List (ℚ × ℚ)) (c : ℚ) :
    l.foldl (fun sum d => sum + (d.1 - d.2) * (d.1 - d.2)) c
      = c + l.foldl (fun sum d => sum + (d.1 - d.2) * (d.1 - d.2)) 0 := by
  induction l generalizing c with
  | nil => simp
  | cons p l ih =>
    simp only [List.foldl_cons]
    rw [ih (c + (p.1 - p.2) * (p.1 - p.2)), ih ((0 : ℚ) + (p.1 - p.2) * (p.1 - p.2))]
    ring

theorem l2Squared_eq_sum : ∀ a b : List ℚ, a.length = b.length →
    l2Squared a b = ∑ i ∈ Finset.range a.length, (a.getD i 0 - b.getD i 0) ^ 2
  | [], [], _ => by simp [l2Squared]
  | [], _ :: _, h => by simp at h
  | _ :: _, [], h => by simp at h
  | x :: xs, y :: ys, h => by
    have hlen : xs.length = ys.length := by simpa using h
    simp only [List.length_cons]
    rw [Finset.sum_range_succ']
    have hx : ∀ i, ((x :: xs).getD (i + 1) 0 - (y :: ys).getD (i + 1) 0) ^ 2
        = (xs.getD i 0 - ys.getD i 0) ^ 2 := by
      intro i
      simp [List.getD_cons_succ]
    simp only [hx, List.getD_cons_zero]
    rw [← l2Squared_eq_sum xs ys hlen]
    show (((x, y) :: xs.zip ys).foldl (fun sum d => sum + (d.1 - d.2) * (d.1 - d.2)) 0) = _
    rw [List.foldl_cons, l2_foldl_acc]
    show 0 + (x - y) * (x - y) + l2Squared xs ys = _
    ring

theorem f32ValsOfBlob_length (b : List Nat) (hb : b.length % 4 = 0) :
    (f32ValsOfBlob b).length = b.length / 4 := by
  unfold f32ValsOfBlob BlobToFloat32
  simp [hb, decode4_length]

/-- Claim C5: with non-null arguments, `vector_distance` fails with a format
error as soon as either argument carries the quantized header (in either
position), fails with a dimension error when either blob's length differs
from `dim * 4`, and otherwise returns the squared L2 distance of the two
decoded little-endian float32 vectors. -/
theorem vector_distance_spec (dim : Nat) (a b : List Nat) :
    (isQuantizedBlob a = true ∨ isQuantizedBlob b = true →
      vector_distance dim (some a) (some b) = .error .format) ∧
    (isQuantizedBlob a = false → isQuantizedBlob b = false →
      a.length ≠ dim * 4 ∨ b.length ≠ dim * 4 →
      vector_distance dim (some a) (some b) = .error .dimension) ∧
    (isQuantizedBlob a = false → isQuantizedBlob b = false →
      a.length = dim * 4 → b.length = dim * 4 →
      vector_distance dim (some a) (some b) =
        .ok (some (∑ i ∈ Finset.range dim,
          ((f32ValsOfBlob a).getD i 0 - (f32ValsOfBlob b).getD i 0) ^ 2))) := by
  refine ⟨?_, ?_, ?_⟩
  · intro hq
    unfold vector_distance
    rcases hq with hq | hq <;> simp [hq]
  · intro ha hb hlen
    unfold vector_distance
    rcases hlen with hlen | hlen
    · simp [ha, hb, hlen]
    · by_cases h2 : a.length = dim * 4 <;> simp [ha, hb, hlen, h2]
  · intro ha hb hla hlb
    unfold vector_distance
    simp only [ha, hb, Bool.or_self, Bool.false_eq_true, if_false, hla, hlb,
      ne_eq, not_true_eq_false, if_true, ite_true, ite_false]
    have hlen : (f32ValsOfBlob a).length = (f32ValsOfBlob b).length := by
      rw [f32ValsOfBlob_length a (by omega), f32ValsOfBlob_length b (by omega), hla, hlb]
    have hdim : (f32ValsOfBlob a).length = dim := by
      rw [f32ValsOfBlob_length a (by omega), hla]
      omega
    rw [l2Squared_eq_sum _ _ hlen, hdim]

/-- Witness for C5 at dimension 1: a quantized-header first argument, a
wrong-length pair, and two valid 4-byte blobs. -/
theorem vector_distance_spec_witness :
    ((isQuantizedBlob [0, 0, 128, 63] = true ∨ isQuantizedBlob [0, 0, 0, 64] = true →
      vector_distance 1 (some [0, 0, 128, 63]) (some [0, 0, 0, 64]) = .error .format) ∧
    (isQuantizedBlob [0, 0, 128, 63] = false → isQuantizedBlob [0, 0, 0, 64] = false →
      ([0, 0, 128, 63] : List Nat).length ≠ 1 * 4 ∨ ([0, 0, 0, 64] : List Nat).length ≠ 1 * 4 →
      vector_distance 1 (some [0, 0, 128, 63]) (some [0, 0, 0, 64]) = .error .dimension) ∧
    (isQuantizedBlob [0, 0, 128, 63] = false → isQuantizedBlob [0, 0, 0, 64] = false →
      ([0, 0, 128, 63] : List Nat).length = 1 * 4 → ([0, 0, 0, 64] : List Nat).length = 1 * 4 →
      vector_distance 1 (some [0, 0, 128, 63]) (some [0, 0, 0, 64]) =
        .ok (some (∑ i ∈ Finset.range 1,
          ((f32ValsOfBlob [0, 0, 128, 63]).getD i 0 - (f32ValsOfBlob [0, 0, 0, 64]).getD i 0) ^ 2)))) :=
  vector_distance_spec 1 [0, 0, 128, 63] [0, 0, 0, 64]

/-- Model of the registration `config` (src/unnamed/part_000:26-33):
dimension, quantization range and flag, and the optional collaborators.
Collaborators are modelled as functions returning `Except`, mirroring the
`Embedder` and `Chunker` interfaces; embedder outputs are float32 bit
patterns. -/
structure Config where
  dim : Nat
  quantMin : ℚ
  quantMax : ℚ
  quantEnabled : Bool
  embedder : Option (String → Except String (List Nat))
  chunker : Option (String → Except String (List String))

/-- Model of the `vector_quantize` scalar function
(src/unnamed/part_000:127-145): null check, configuration check, dimension
check, then quantization of the decoded vector. -/
def vector_quantize (cfg : Config) (arg : Option (List Nat)) : Except VErr (Option (List Nat)) :=
  match arg with
  | none => .ok none
  | some blob =>
    if cfg.quantEnabled = false then .error .config
    else if blob.length ≠ cfg.dim * 4 then .error .dimension
    else .ok (some (quantize (f32ValsOfBlob blob) cfg.quantMin cfg.quantMax))

/-- Numeric vector read from a quantized blob: the
`a, _ := dequantize(blob, min, max)` idiom (error ignored; the caller has
already checked the header). -/
def dequantVals (cfg : Config) (b : List Nat) : List ℚ :=
  match dequantize b cfg.quantMin cfg.quantMax with
  | .ok v => v
  | .error _ => []

/-- Model of the `vector_distance_q` scalar function
(src/unnamed/part_000:150-179): null check on both arguments, configuration
check, per-argument header and length checks, then squared L2 distance of
the dequantized vectors. -/
def vector_distance_q (cfg : Config) (a? b? : Option (List Nat)) : Except VErr (Option ℚ) :=
  match a?, b? with
  | some a, some b =>
    if cfg.quantEnabled = false then .error .config
    else if isQuantizedBlob a = false then .error .format
    else if isQuantizedBlob b = false then .error .format
    else if a.length ≠ 2 + cfg.dim then .error .dimension
    else if b.length ≠ 2 + cfg.dim then .error .dimension
    else .ok (some (l2Squared (dequantVals cfg a) (dequantVals cfg b)))
  | _, _ => .ok none

/-- Model of the `vector_embed` scalar function
(src/unnamed/part_000:184-204): null check, embedder-configured check,
embedder invocation with error wrapping, dimension check, then encoding. -/
def vector_embed (cfg : Config) (arg : Option String) : Except VErr (Option (List Nat)) :=
  match arg with
  | none => .ok none
  | some text =>
    match cfg.embedder with
    | none => .error .config
    | some em =>
      match em text with
      | .error e => .error (.embed e)
      | .ok floats =>
        if floats.length ≠ cfg.dim then .error .dimension
        else .ok (some (Float32ToBlob floats))

/-- Claim C10: in each registered scalar function the null check comes
first, so `vector_quantize` and `vector_distance_q` return a null result
for a null argument even when quantization is not configured, and
`vector_embed` returns null for null input even when no embedder is
configured. -/
theorem null_check_precedes_config (cfg : Config) (hq : cfg.quantEnabled = false)
    (he : cfg.embedder = none) :
    vector_quantize cfg none = .ok none ∧
    (∀ b?, vector_distance_q cfg none b? = .ok none) ∧
    (∀ a?, vector_distance_q cfg a? none = .ok none) ∧
    vector_embed cfg none = .ok none := by
  refine ⟨rfl, fun b? => rfl, fun a? => ?_, rfl⟩
  cases a? <;> rfl

/-- Witness for C10 at a concrete configuration with quantization disabled
and no embedder. -/
theorem null_check_precedes_config_witness :
    (Config.mk 1 0 1 false none none).quantEnabled = false ∧
    (Config.mk 1 0 1 false none none).embedder = none ∧
    (vector_quantize (Config.mk 1 0 1 false none none) none = .ok none ∧
    (∀ b?, vector_distance_q (Config.mk 1 0 1 false none none) none b? = .ok none) ∧
    (∀ a?, vector_distance_q (Config.mk 1 0 1 false none none) a? none = .ok none) ∧
    vector_embed (Config.mk 1 0 1 false none none) none = .ok none) :=
  ⟨rfl, rfl, null_check_precedes_config (Config.mk 1 0 1 false none none) rfl rfl⟩

/-- SQLite values observable through the chunk cursor columns. -/
inductive SqlVal where
  | null
  | text (s : String)
  | int (n : Int)
  deriving DecidableEq, Repr

/-- State of a `chunkCursor` (src/unnamed/part_000:328-332). -/
structure ChunkCursor where
  chunks : List String
  pos : Nat
  deriving DecidableEq, Repr

/-- Model of `chunkCursor.Filter` (src/unnamed/part_000:334-350): the
configured-chunker check comes first and returns with the cursor state
untouched; then the cursor is reset, a null or absent text argument yields
the empty result set, and otherwise the chunker is invoked once, its error
wrapped, its chunk list stored whole. The returned pair is the cursor state
after the call together with the Go error result. -/
def chunkFilter (ch? : Option (String → Except String (List String)))
    (cur : ChunkCursor) (argv : List (Option String)) : ChunkCursor × Option VErr :=
  match ch? with
  | none => (cur, some .config)
  | some ch =>
    match argv with
    | [] => (⟨[], 0⟩, none)
    | none :: _ => (⟨[], 0⟩, none)
    | some text :: _ =>
      match ch text with
      | .error e => (⟨[], 0⟩, some (.chunker e))
      | .ok cs => (⟨cs, 0⟩, none)

/-- Model of `chunkCursor.EOF` (src/unnamed/part_000:372-374). -/
def chunkEOF (cur : ChunkCursor) : Bool :=
  cur.chunks.length ≤ cur.pos

/-- Model of `chunkCursor.Next` (src/unnamed/part_000:352-355). -/
def chunkNext (cur : ChunkCursor) : ChunkCursor :=
  ⟨cur.chunks, cur.pos + 1⟩

/-- Model of `chunkCursor.Column` (src/unnamed/part_000:357-366): column 0
is the chunk text at the current position (`none` models the out-of-range
panic, which the cursor protocol excludes), column 1 the position, and
every other column — including the hidden input column 2 — the zero
`sqlite.Value`, i.e. SQL null. -/
def chunkColumn (cur : ChunkCursor) (i : Nat) : Option SqlVal :=
  match i with
  | 0 => (cur.chunks.get? cur.pos).map SqlVal.text
  | 1 => some (.int cur.pos)
  | _ => some .null

/-- Counterexample for claim C7: when no chunker is registered, `Filter`
returns the configuration error before touching the cursor, so a cursor
position is not reset to 0 in that case. -/
theorem chunkFilter_no_reset_on_config_error :
    chunkFilter none ⟨["x"], 5⟩ [] = (⟨["x"], 5⟩, some .config) ∧
      (chunkFilter none ⟨["x"], 5⟩ []).1.pos ≠ 0 := by
  constructor
  · rfl
  · decide

/-- Claim C7 as amended: `Filter` fails with a configuration error when no
chunker is registered, leaving the cursor untouched; in every other case
the position is reset to 0: a null or absent text argument resets to the
empty result set (zero rows) without error, a chunker failure is surfaced
as a wrapped chunker error with the cursor left empty (no rows producible),
and on success the complete ordered chunk list is stored. -/
theorem chunkFilter_spec (ch? : Option (String → Except String (List String)))
    (cur : ChunkCursor) (argv : List (Option String)) :
    (ch? = none → chunkFilter ch? cur argv = (cur, some .config)) ∧
    (∀ ch, ch? = some ch →
      (chunkFilter ch? cur argv).1.pos = 0 ∧
      ((argv = [] ∨ argv.head? = some none) →
        chunkFilter ch? cur argv = (⟨[], 0⟩, none) ∧ chunkEOF ⟨[], 0⟩ = true) ∧
      (∀ text e, argv.head? = some (some text) → ch text = .error e →
        chunkFilter ch? cur argv = (⟨[], 0⟩, some (.chunker e)) ∧ chunkEOF ⟨[], 0⟩ = true) ∧
      (∀ text cs, argv.head? = some (some text) → ch text = .ok cs →
        chunkFilter ch? cur argv = (⟨cs, 0⟩, none))) := by
  constructor
  · intro h
    subst h
    rfl
  · intro ch hch
    subst hch
    refine ⟨?_, ?_, ?_, ?_⟩
    · match argv with
      | [] => rfl
      | none :: _ => rfl
      | some text :: _ =>
        show (match ch text with
          | .error e => ((⟨[], 0⟩ : ChunkCursor), some (VErr.chunker e))
          | .ok cs => (⟨cs, 0⟩, none)).1.pos = 0
        cases ch text <;> rfl
    · rintro (h | h)
      · subst h
        exact ⟨rfl, rfl⟩
      · match argv, h with
        | none :: _, _ => exact ⟨rfl, rfl⟩
    · intro text e hhead herr
      match argv, hhead with
      | some t :: _, hh =>
        obtain rfl : t = text := by simpa using hh
        refine ⟨?_, rfl⟩
        show (match ch t with
          | .error e => ((⟨[], 0⟩ : ChunkCursor), some (VErr.chunker e))
          | .ok cs => (⟨cs, 0⟩, none)) = _
        rw [herr]
    · intro text cs hhead hok
      match argv, hhead with
      | some t :: _, hh =>
        obtain rfl : t = text := by simpa using hh
        show (match ch t with
          | .error e => ((⟨[], 0⟩ : ChunkCursor), some (VErr.chunker e))
          | .ok cs => (⟨cs, 0⟩, none)) = _
        rw [hok]

/-- Witness for C7 at a whitespace-splitting chunker given the text
"abc def", a null argument, and an absent chunker. -/
theorem chunkFilter_spec_witness :
    ((some fun t : String => Except.ok (t.splitOn " ") :
        Option (String → Except String (List String))) = none →
      chunkFilter (some fun t : String => Except.ok (t.splitOn " ")) ⟨[], 0⟩ [some "abc def"]
        = (⟨[], 0⟩, some .config)) ∧
    (∀ ch, (some fun t : String => Except.ok (t.splitOn " ") :
        Option (String → Except String (List String))) = some ch →
      (chunkFilter (some fun t : String => Except.ok (t.splitOn " ")) ⟨[], 0⟩
        [some "abc def"]).1.pos = 0 ∧
      (([some "abc def"] = ([] : List (Option String)) ∨
          ([some "abc def"] : List (Option String)).head? = some none) →
        chunkFilter (some fun t : String => Except.ok (t.splitOn " ")) ⟨[], 0⟩ [some "abc def"]
          = (⟨[], 0⟩, none) ∧ chunkEOF ⟨[], 0⟩ = true) ∧
      (∀ text e, ([some "abc def"] : List (Option String)).head? = some (some text) →
        ch text = .error e →
        chunkFilter (some fun t : String => Except.ok (t.splitOn " ")) ⟨[], 0⟩ [some "abc def"]
          = (⟨[], 0⟩, some (.chunker e)) ∧ chunkEOF ⟨[], 0⟩ = true) ∧
      (∀ text cs, ([some "abc def"] : List (Option String)).head? = some (some text) →
        ch text = .ok cs →
        chunkFilter (some fun t : String => Except.ok (t.splitOn " ")) ⟨[], 0⟩ [some "abc def"]
          = (⟨cs, 0⟩, none))) :=
  chunkFilter_spec (some fun t : String => Except.ok (t.splitOn " ")) ⟨[], 0⟩ [some "abc def"]

/-- Counterexample for claim C8: a cursor opened on text "abc" (chunker
returning the whole text as one chunk) stores only the chunk list; reading
column 2 yields SQL null, not the supplied text. -/
theorem chunkColumn_hidden_not_echoed :
    (chunkFilter (some fun t : String => Except.ok [t]) ⟨[], 0⟩ [some "abc"]).1
      = ⟨["abc"], 0⟩ ∧
    chunkColumn ⟨["abc"], 0⟩ 2 = some .null ∧
    SqlVal.null ≠ SqlVal.text "abc" := by
  refine ⟨rfl, rfl, by decide⟩

/-- Claim C8 as amended: reading the hidden input column (index 2) of the
chunk cursor always returns SQL null, for every cursor state; the text
argument supplied at open time is not stored in the cursor and is not
echoed (SQLite never needs it because `BestIndex` marks the constraint
`Omit`). -/
theorem chunkColumn_hidden_is_null (cur : ChunkCursor) :
    chunkColumn cur 2 = some .null :=
  rfl

/-- Witness for C3 (amended) at a header-bearing 3-byte blob and range (0, 1). -/
theorem dequantize_spec_witness :
    (dequantize [0x00, 0x01, 0x05] 0 1 = .error .format ↔
      ([0x00, 0x01, 0x05] : List Nat).take 2 ≠ [0x00, 0x01]) ∧
    (∀ data, ([0x00, 0x01, 0x05] : List Nat) = 0x00 :: 0x01 :: data →
      dequantize [0x00, 0x01, 0x05] 0 1 =
        .ok (data.map fun raw => ((int8OfByte raw : ℚ) + 128) / 255 * (1 - 0) + 0)) :=
  dequantize_spec [0x00, 0x01, 0x05] 0 1

/-- Witness for C6 (amended) at a concrete header-bearing blob. -/
theorem isQuantizedBlob_spec_witness :
    (isQuantizedBlob [0x00, 0x01, 0x09] = true ↔
      2 ≤ ([0x00, 0x01, 0x09] : List Nat).length ∧
        ([0x00, 0x01, 0x09] : List Nat).get? 0 = some 0x00 ∧
        ([0x00, 0x01, 0x09] : List Nat).get? 1 = some 0x01) ∧
      ∃ v : List Nat, (∀ x ∈ v, x < 2 ^ 32) ∧ isQuantizedBlob (Float32ToBlob v) = true :=
  isQuantizedBlob_spec [0x00, 0x01, 0x09]

end GoVec
